import Mathlib

/-!
Verification of the kinematic-rig core of `cs4732-proj2`.

The Python source (src/proj2/rig.py, src/proj2/animation.py,
src/proj2/__main__.py) is shallowly embedded below:

* `QMatrix4x4` is embedded as `Mat4`, a 4x4 rational matrix (the claims
  under scrutiny only exercise exact-rational matrix entries: identity,
  translation, scaling and the constructor's exact 90-degree rotation).
  Qt's `m.translate/rotate/scale` post-multiply the corresponding matrix
  onto `m`, and `*` is the usual matrix product applied to column vectors.
* A Python `Joint` object is embedded as a `JointData` record (its scalar
  and matrix fields, plus an `id` field standing for Python object
  identity) together with its position in the tree of joints: `JTree` is
  a joint with its children, `JForest` the collection of children.  The
  Python `children` attribute is a `set` populated once, at
  child-construction time; a set guarantees membership only, so `JForest`
  carries the children in the order the set happens to iterate them —
  unspecified, fixed within a run — and every traversal theorem below
  quantifies over all such orders rather than assuming registration
  order.
* The Qt scene side effect (`_obj_transform.setMatrix(...)`) writes to
  the renderer only and is not part of any modelled field.
-/

/-- A 4x4 rational matrix, the embedding of `QMatrix4x4`. -/
def Mat4 : Type := Fin 4 → Fin 4 → ℚ

instance : DecidableEq Mat4 :=
  inferInstanceAs (DecidableEq (Fin 4 → Fin 4 → ℚ))

/-- The identity matrix, `QMatrix4x4()`. -/
def m4id : Mat4 := fun i j => if i = j then 1 else 0

/-- Matrix product `a * b` of `QMatrix4x4`, written out entrywise. -/
def m4mul (a b : Mat4) : Mat4 := fun i j =>
  a i 0 * b 0 j + a i 1 * b 1 j + a i 2 * b 2 j + a i 3 * b 3 j

/-- The translation matrix by `(x, y, z)`. -/
def m4translation (x y z : ℚ) : Mat4 := fun i j =>
  if i = j then 1
  else if j = 3 then (if i = 0 then x else if i = 1 then y else if i = 2 then z else 0)
  else 0

/-- The axis-aligned scaling matrix by `(sx, sy, sz)`. -/
def m4scale (sx sy sz : ℚ) : Mat4 := fun i j =>
  if i = j then (if i = 0 then sx else if i = 1 then sy else if i = 2 then sz else 1)
  else 0

/-- Rotation by exactly 90 degrees about the x-axis, the constructor's
`rotate(90, 1, 0, 0)` (cos 90 = 0, sin 90 = 1, so the entries are exact). -/
def m4rotX90 : Mat4 := fun i j =>
  if i = 0 ∧ j = 0 then 1
  else if i = 1 ∧ j = 2 then -1
  else if i = 2 ∧ j = 1 then 1
  else if i = 3 ∧ j = 3 then 1
  else 0

/-- Post-multiplication `m.translate(x, y, z)` of `QMatrix4x4`. -/
def m4translateBy (m : Mat4) (x y z : ℚ) : Mat4 := m4mul m (m4translation x y z)

/-- Post-multiplication `m.scale(sx, sy, sz)` of `QMatrix4x4`. -/
def m4scaleBy (m : Mat4) (sx sy sz : ℚ) : Mat4 := m4mul m (m4scale sx sy sz)

/-- A 3D point with rational coordinates (`QVector3D`). -/
structure V3 where
  x : ℚ
  y : ℚ
  z : ℚ
deriving DecidableEq

/-- Application of an affine `Mat4` to a point (`m * v` on a `QVector3D`;
the matrices built here keep the bottom row `(0,0,0,1)`, so the
homogeneous coordinate stays 1 and no perspective division occurs). -/
def m4apply (m : Mat4) (p : V3) : V3 :=
  { x := m 0 0 * p.x + m 0 1 * p.y + m 0 2 * p.z + m 0 3
    y := m 1 0 * p.x + m 1 1 * p.y + m 1 2 * p.z + m 1 3
    z := m 2 0 * p.x + m 2 1 * p.y + m 2 2 * p.z + m 2 3 }

/-- The per-object fields of a Python `Joint` (rig.py, `Joint.__init__`).
`id` stands for Python object identity; the `parent` reference and the
`children` set are represented by the joint's position in a `JTree`. -/
structure JointData where
  id : ℕ
  length : ℚ
  thickness : ℚ
  shape_transform : Mat4
  joint_pos : Mat4
  local_transform : Mat4
  global_transform : Mat4

/-- Embedding of `Joint.__init__` (rig.py lines 91-125): freezes
`shape_transform` (scale, then translate `(0,0,0.5)`, then rotate 90
about x, each post-multiplied onto a fresh identity) and `joint_pos`
(translate by `length` along z), and initialises `local_transform` and
`_global_transform` to the identity.  The constructor performs no
validation of `length` or `thickness`. -/
def Joint.init (id : ℕ) (length thickness : ℚ) : JointData :=
  { id := id
    length := length
    thickness := thickness
    shape_transform :=
      m4translateBy (m4scaleBy m4id thickness thickness length) 0 0 (1/2)
      |> (fun m => m4mul m m4rotX90)
    joint_pos := m4translateBy m4id 0 0 length
    local_transform := m4id
    global_transform := m4id }

/-- Python constructors may raise; `Joint.__init__` contains no `raise`
or `assert`, so its exception-aware embedding always returns `ok`. -/
inductive SetupError where
  | invalidArgument
deriving DecidableEq

/-- Exception-aware embedding of `Joint(...)` construction: the body of
`Joint.__init__` has no validation path, so every call succeeds. -/
def Joint.tryInit (id : ℕ) (length thickness : ℚ) : Except SetupError JointData :=
  .ok (Joint.init id length thickness)

mutual
/-- A joint together with its descendants: the `children`-linked tree. -/
inductive JTree where
  | node (data : JointData) (children : JForest)
/-- A collection of sibling joints: the embedding of the Python
`children` set, whose elements are inserted exactly once at
child-construction time.  A Python `set` guarantees membership, not
insertion order, so the sequence here is the set's own (unspecified,
per-run-fixed) iteration order: any permutation of the registered
children is an admissible `JForest` for the same rig. -/
inductive JForest where
  | nil
  | cons (t : JTree) (f : JForest)
end

/-- The joint record stored at the root of a subtree. -/
def dataOf : JTree → JointData
  | .node d _ => d

/-- The children of the joint at the root of a subtree. -/
def childrenOf : JTree → JForest
  | .node _ f => f

/-- A forest as a list of its member trees. -/
def forestList : JForest → List JTree
  | .nil => []
  | .cons t f => t :: forestList f

mutual
/-- Embedding of `Joint.update_transform` (rig.py lines 133-151): the
context carries `(parent._global_transform, parent.joint_pos)` once the
parent has been updated (`none` for the root); the joint recomputes
`_global_transform` and then recurses into its children. -/
def updateT : Option (Mat4 × Mat4) → JTree → JTree
  | ctx, .node d f =>
    let g : Mat4 :=
      match ctx with
      | none => d.local_transform
      | some (pg, pjp) => m4mul (m4mul pg pjp) d.local_transform
    .node { d with global_transform := g } (updateF (g, d.joint_pos) f)
/-- The recursion of `update_transform` over the `children` collection. -/
def updateF : Mat4 × Mat4 → JForest → JForest
  | _, .nil => .nil
  | ctx, .cons t f => .cons (updateT (some ctx) t) (updateF ctx f)
end

/-- Embedding of `Joint.reset` (rig.py lines 127-131): the single
statement `self.local_transform = QMatrix4x4()`. -/
def Joint.resetJ (d : JointData) : JointData :=
  { d with local_transform := m4id }

/-- `Joint.reset` as it acts on one joint object in the tree: only that
joint's `local_transform` is replaced; the children are untouched. -/
def resetOne : JTree → JTree
  | .node d f => .node (Joint.resetJ d) f

mutual
/-- Embedding of `Rig.reset` (rig.py lines 73-78): `joint.reset()` runs
on every joint of `root.iter_hierarchy()`; each call touches only its
own joint, so the traversal is a per-node map. -/
def resetT : JTree → JTree
  | .node d f => .node (Joint.resetJ d) (resetF f)
/-- The `Rig.reset` traversal over a forest of children. -/
def resetF : JForest → JForest
  | .nil => .nil
  | .cons t f => .cons (resetT t) (resetF f)
end

mutual
/-- Embedding of `Joint.iter_hierarchy` (rig.py lines 153-165):
pre-order, the joint itself first, then each child's hierarchy. -/
def iterT : JTree → List JTree
  | .node d f => .node d f :: iterF f
/-- The concatenated hierarchies of a forest of children. -/
def iterF : JForest → List JTree
  | .nil => []
  | .cons t f => iterT t ++ iterF f
end

mutual
/-- The number of joints in a subtree. -/
def sizeT : JTree → ℕ
  | .node _ f => 1 + sizeF f
/-- The number of joints in a forest. -/
def sizeF : JForest → ℕ
  | .nil => 0
  | .cons t f => sizeT t + sizeF f
end

mutual
/-- The object identities of all joints of a subtree. -/
def treeIds : JTree → List ℕ
  | .node d f => d.id :: forestIds f
/-- The object identities of all joints of a forest. -/
def forestIds : JForest → List ℕ
  | .nil => []
  | .cons t f => treeIds t ++ forestIds f
end

/-- Embedding of `Rig` (rig.py lines 66-84): it owns the root joint
(the named-registry sugar is modelled separately below). -/
structure Rig where
  root : JTree

/-- Embedding of `Rig.reset`. -/
def Rig.reset (r : Rig) : Rig := ⟨resetT r.root⟩

/-- Embedding of `Rig.update` (rig.py lines 80-84): one call of
`root.update_transform()`; the root has no parent. -/
def Rig.update (r : Rig) : Rig := ⟨updateT none r.root⟩

/-- The list of `global_transform`s of all joints of a rig, in hierarchy
order. -/
def globalsOf (r : Rig) : List Mat4 :=
  (iterT r.root).map (fun t => (dataOf t).global_transform)

/-- The list of `local_transform`s of all joints of a rig, in hierarchy
order. -/
def localsOf (r : Rig) : List Mat4 :=
  (iterT r.root).map (fun t => (dataOf t).local_transform)

mutual
/-- The C1 invariant on an updated tree: each joint's `global_transform`
equals `parent._global_transform * parent.joint_pos * local_transform`
(for the root: `local_transform` alone), the context carrying the parent
data exactly as `update_transform` does. -/
def InvT : Option (Mat4 × Mat4) → JTree → Prop
  | ctx, .node d f =>
    (d.global_transform =
      match ctx with
      | none => d.local_transform
      | some (pg, pjp) => m4mul (m4mul pg pjp) d.local_transform)
    ∧ InvF (d.global_transform, d.joint_pos) f
/-- The C1 invariant over a forest of children. -/
def InvF : Mat4 × Mat4 → JForest → Prop
  | _, .nil => True
  | ctx, .cons t f => InvT (some ctx) t ∧ InvF ctx f
end

/-- The rig of the chain-composition scenario: a root plus a 3-joint
chain, each joint built by `Joint.__init__` with `length = 1`
(thickness 1), children attached in construction order. -/
def c7rig : Rig :=
  ⟨.node (Joint.init 0 1 1)
    (.cons (.node (Joint.init 1 1 1)
      (.cons (.node (Joint.init 2 1 1)
        (.cons (.node (Joint.init 3 1 1) .nil) .nil)) .nil)) .nil)⟩

/-- A small concrete rig (root with two children, one grandchild, ids
0-3) used to witness the traversal properties. -/
def c3rig : Rig :=
  ⟨.node (Joint.init 0 1 1)
    (.cons (.node (Joint.init 1 1 1)
      (.cons (.node (Joint.init 2 1 1) .nil) .nil))
     (.cons (.node (Joint.init 3 1 1) .nil) .nil))⟩

/-- A childless joint with object id 1, registered first with its
parent. -/
def childA : JTree := .node (Joint.init 1 1 1) .nil

/-- A childless joint with object id 2, registered second with its
parent. -/
def childB : JTree := .node (Joint.init 2 1 1) .nil

/-- The two children of one parent in creation/registration order:
`childA` was added to the parent's `children` set first, `childB`
second. -/
def regChildren : JForest := .cons childA (.cons childB .nil)

/-- The same two-element `children` set in the other iteration order —
equally admissible, since a Python `set` promises membership only, not
insertion order. -/
def setChildren : JForest := .cons childB (.cons childA .nil)

/-- Embedding of the per-chain incremental-rotation assignment
(__main__.py lines 99-118 for the spine, 121-137 for each wing): with
`prev_global_angle` initialised to 0 at the start of each chain, joint
`i` receives the local rotation `global_angle[i] - prev_global_angle`
about the chain's fixed axis, and `prev_global_angle` becomes
`global_angle[i]`.  A rotation about one fixed axis is represented by
its (real) angle; composing rotations of a chain about that axis adds
the angles. -/
def localAngle (g : ℕ → ℝ) : ℕ → ℝ
  | 0 => g 0 - 0
  | i + 1 => g (i + 1) - g i

/-- The cumulative rotation of joint `i` relative to the chain root: the
composition (sum) of the local rotation angles of joints `0..i`. -/
def cumAngle (g : ℕ → ℝ) (i : ℕ) : ℝ :=
  ∑ k in Finset.range (i + 1), localAngle g k

/-- Embedding of `Animation.__init__` (animation.py lines 20-33): the
constructor stores the title, asserts `0 < frame_rate < 1000`, then
asserts `run_time > 0`; a failed Python `assert` raises, which the spec
maps to `InvalidArgument`, fatal to that setup call. -/
def Animation.init (title : String) (frame_rate run_time : ℚ) :
    Except SetupError (String × ℚ × ℚ) :=
  if 0 < frame_rate ∧ frame_rate < 1000 then
    if run_time > 0 then .ok (title, frame_rate, run_time)
    else .error .invalidArgument
  else .error .invalidArgument

/-- A subscript key of the named-joint registry `Rig.Joints`: the Python
code indexes it both by attribute name (a string) and by `[]` with an
integer. -/
inductive Key where
  | str (s : String)
  | idx (n : Int)
deriving DecidableEq

/-- A value stored in the registry's backing `defaultdict`: either a
nested `Rig.Joints` node (its entries, an insertion-ordered dict) or a
`Joint` reference (by object identity). -/
inductive JVal where
  | node (entries : List (Key × JVal))
  | leaf (j : ℕ)

/-- Python dict lookup `k in d` / `d[k]` on the backing entries list
(first — and only — binding of the key). -/
def getEntry : List (Key × JVal) → Key → Option JVal
  | [], _ => none
  | (k2, v) :: es, k => if k = k2 then some v else getEntry es k

/-- Python dict assignment `d[k] = v`: replaces an existing binding in
place, otherwise appends (dicts preserve insertion order). -/
def dictSet : List (Key × JVal) → Key → JVal → List (Key × JVal)
  | [], k, v => [(k, v)]
  | (k2, v2) :: es, k, v =>
    if k = k2 then (k, v) :: es else (k2, v2) :: dictSet es k v

/-- Embedding of `Rig.Joints.__getitem__`/`__getattr__` (rig.py lines
30-31 and 51-52): `self._joints[index]` on a `defaultdict(Rig.Joints)`.
A missing key is auto-vivified: a fresh empty `Rig.Joints` node is
inserted under the key and returned.  The result pairs the (possibly
grown) entries with the value read. -/
def getItemD (es : List (Key × JVal)) (k : Key) : List (Key × JVal) × JVal :=
  match getEntry es k with
  | some v => (es, v)
  | none => (es ++ [(k, JVal.node [])], JVal.node [])

/-- Embedding of a chained assignment `j[k1][k2]...[kn] = v`: each inner
subscript goes through the auto-vivifying `__getitem__`, the final one
through `__setitem__` (rig.py lines 33-34); the functional write-back of
the mutated sub-object is `dictSet`.  Subscripting a stored `Joint`
(leaf) raises in Python, modelled as `none`. -/
def setPath : JVal → List Key → JVal → Option JVal
  | .node es, [k], v => some (.node (dictSet es k v))
  | .node es, k :: k2 :: ks, v =>
    let g := getItemD es k
    match setPath g.2 (k2 :: ks) v with
    | some sub => some (.node (dictSet g.1 k sub))
    | none => none
  | _, _, _ => none

/-- Embedding of a chained read `j[k1][k2]...[kn]`: every subscript goes
through the auto-vivifying `__getitem__`; returns the (possibly grown)
registry together with the value read, `none` when a stored `Joint`
(leaf) is subscripted. -/
def getPath : JVal → List Key → Option (JVal × JVal)
  | v, [] => some (v, v)
  | .node es, k :: ks =>
    let g := getItemD es k
    match getPath g.2 ks with
    | some (sub, res) => some (.node (dictSet g.1 k sub), res)
    | none => none
  | .leaf _, _ :: _ => none

/-- The value a chained read returns, dropping the updated registry. -/
def getPathVal (m : JVal) (p : List Key) : Option JVal :=
  (getPath m p).map Prod.snd

/-- Decides that a nested assignment path can be traversed: the path is
nonempty and no intermediate level of it is already bound to a `Joint`
(leaf); unbound intermediate levels are fine — they auto-vivify. -/
def pathOk : JVal → List Key → Bool
  | .node _, [_] => true
  | .node es, k :: k2 :: ks =>
    (match getEntry es k with
     | none => true
     | some v => pathOk v (k2 :: ks))
  | _, _ => false

@[simp] theorem dataOf_node (d : JointData) (f : JForest) :
    dataOf (.node d f) = d := rfl

@[simp] theorem childrenOf_node (d : JointData) (f : JForest) :
    childrenOf (.node d f) = f := rfl

@[simp] theorem resetJ_idem (d : JointData) :
    Joint.resetJ (Joint.resetJ d) = Joint.resetJ d := rfl

mutual
theorem invT_updateT (ctx : Option (Mat4 × Mat4)) (t : JTree) :
    InvT ctx (updateT ctx t) := by
  cases t with
  | node d f =>
    cases ctx with
    | none => exact ⟨rfl, invF_updateF _ f⟩
    | some p =>
      obtain ⟨pg, pjp⟩ := p
      exact ⟨rfl, invF_updateF _ f⟩
theorem invF_updateF (ctx : Mat4 × Mat4) (f : JForest) :
    InvF ctx (updateF ctx f) := by
  cases f with
  | nil => trivial
  | cons t f => exact ⟨invT_updateT _ t, invF_updateF _ f⟩
end

mutual
theorem locals_updateT (ctx : Option (Mat4 × Mat4)) (t : JTree) :
    (iterT (updateT ctx t)).map (fun s => (dataOf s).local_transform)
      = (iterT t).map (fun s => (dataOf s).local_transform) := by
  cases t with
  | node d f =>
    simp only [updateT, iterT, List.map_cons, dataOf_node]
    rw [locals_updateF]
theorem locals_updateF (ctx : Mat4 × Mat4) (f : JForest) :
    (iterF (updateF ctx f)).map (fun s => (dataOf s).local_transform)
      = (iterF f).map (fun s => (dataOf s).local_transform) := by
  cases f with
  | nil => rfl
  | cons t f =>
    simp only [updateF, iterF, List.map_append]
    rw [locals_updateT, locals_updateF]
end

/-- C1: after `Rig.update()` returns, every joint's `global_transform`
equals `parent._global_transform * parent.joint_pos * local_transform`
(the root, which has no parent, gets `local_transform` alone), and the
`local_transform` values themselves — the ones set since the last
`reset()` — are untouched by the update.  `InvT none` states the
invariant for the whole hierarchy starting at the parentless root. -/
theorem c1_update_global_transform_invariant (r : Rig) :
    InvT none (Rig.update r).root
      ∧ localsOf (Rig.update r) = localsOf r :=
  ⟨invT_updateT none r.root, locals_updateT none r.root⟩

mutual
theorem resetT_idem (t : JTree) : resetT (resetT t) = resetT t := by
  cases t with
  | node d f => simp only [resetT, resetJ_idem, resetF_idem f]
theorem resetF_idem (f : JForest) : resetF (resetF f) = resetF f := by
  cases f with
  | nil => rfl
  | cons t f => simp only [resetF, resetT_idem t, resetF_idem f]
end

/-- C6: calling `reset()` twice in a row and then `update()` yields
exactly the same `global_transform` on every joint as calling `reset()`
once and then `update()`, whatever local-transform mutations the rig
carried beforehand. -/
theorem c6_reset_idempotent (r : Rig) :
    globalsOf (Rig.update (Rig.reset (Rig.reset r)))
      = globalsOf (Rig.update (Rig.reset r)) := by
  show globalsOf ⟨updateT none (resetT (resetT r.root))⟩
      = globalsOf ⟨updateT none (resetT r.root)⟩
  rw [resetT_idem]

/-- C10: `Joint.reset()` sets only `local_transform` (to the identity)
and leaves every other field of the joint unchanged — `id` (object
identity), `length`, `thickness`, `shape_transform`, `joint_pos` and
the current `global_transform` — and, acting on a joint in the tree,
leaves its children collection exactly as it was. -/
theorem c10_reset_frame_effect :
    (∀ d : JointData,
      (Joint.resetJ d).local_transform = m4id
        ∧ (Joint.resetJ d).id = d.id
        ∧ (Joint.resetJ d).length = d.length
        ∧ (Joint.resetJ d).thickness = d.thickness
        ∧ (Joint.resetJ d).shape_transform = d.shape_transform
        ∧ (Joint.resetJ d).joint_pos = d.joint_pos
        ∧ (Joint.resetJ d).global_transform = d.global_transform)
    ∧ (∀ t : JTree,
      childrenOf (resetOne t) = childrenOf t
        ∧ dataOf (resetOne t) = Joint.resetJ (dataOf t)) :=
  ⟨fun _ => ⟨rfl, rfl, rfl, rfl, rfl, rfl, rfl⟩,
   fun t => by cases t with | node d f => exact ⟨rfl, rfl⟩⟩

theorem m4mul_id_left (m : Mat4) : m4mul m4id m = m := by
  funext i j
  fin_cases i <;>
    simp +decide [m4mul, m4id]

theorem m4mul_id_right (m : Mat4) : m4mul m m4id = m := by
  funext i j
  fin_cases j <;>
    simp +decide [m4mul, m4id]

theorem m4translation_comp (a b c x y z : ℚ) :
    m4mul (m4translation a b c) (m4translation x y z)
      = m4translation (a + x) (b + y) (c + z) := by
  funext i j
  fin_cases i <;> fin_cases j <;>
    simp +decide [m4mul, m4translation] <;> ring

/-- The constructor freezes `joint_pos` as the translation by `length`
along z (rig.py lines 117-119). -/
theorem joint_pos_init (id : ℕ) (length thickness : ℚ) :
    (Joint.init id length thickness).joint_pos = m4translation 0 0 length := by
  show m4mul m4id (m4translation 0 0 length) = _
  exact m4mul_id_left _

/-- C7: for the root-plus-3-joint chain with `length = 1` each, every
`joint_pos` the constructor-frozen translation by 1 along z and all
local transforms left at identity, after `reset()` and `update()` the
world position of the last joint's origin is `(0, 0, 3)`. -/
theorem c7_chain_composition :
    ((iterT (Rig.update (Rig.reset c7rig)).root).map
        (fun t => m4apply (dataOf t).global_transform ⟨0, 0, 0⟩)).getLast?
      = some ⟨0, 0, 3⟩ := by
  simp only [c7rig, Rig.update, Rig.reset, resetT, resetF, updateT, updateF,
    iterT, iterF, Joint.resetJ, joint_pos_init, dataOf_node, List.map,
    List.getLast?, List.cons_append, List.nil_append,
    m4mul_id_left, m4mul_id_right, m4translation_comp]
  norm_num +decide [m4apply, m4translation]

/-- C2: for every chain whose joint `i` gets the local rotation
`global_angle[i] - global_angle[i-1]` about a fixed axis (previous angle
starting at 0), the cumulative rotation of joint `i` relative to the
chain root telescopes to exactly `global_angle[i]` — exact over the
reals, so within floating-point tolerance for the float program.  The
angle sequence `g` is arbitrary, covering in particular the tangent
angles `atan(magnitude * cos(theta))` the code computes. -/
theorem c2_incremental_angle_roundtrip (g : ℕ → ℝ) (i : ℕ) :
    cumAngle g i = g i := by
  induction i with
  | zero => simp [cumAngle, localAngle]
  | succ n ih =>
    unfold cumAngle at ih ⊢
    rw [Finset.sum_range_succ, ih]
    show g n + (g (n + 1) - g n) = g (n + 1)
    ring

/-- C4 counterexample: constructing a `Joint` with `length = 0` (and
`thickness = 0`) does not fail — `Joint.__init__` has no validation, so
the claim that it raises `InvalidArgument` is false at this input. -/
theorem c4_counterexample :
    Joint.tryInit 0 0 0 ≠ Except.error SetupError.invalidArgument :=
  fun h => Except.noConfusion h

/-- C4 (amended): every attempt to construct a `Joint` with non-positive
length or non-positive thickness succeeds, silently producing the joint:
`Joint.__init__` performs no validation of either parameter. -/
theorem c4_nonpositive_construction_succeeds (id : ℕ) (length thickness : ℚ)
    (_h : length ≤ 0 ∨ thickness ≤ 0) :
    Joint.tryInit id length thickness = Except.ok (Joint.init id length thickness) :=
  rfl

/-- Witness for the amended C4 at `length = 0`, `thickness = 1/2`. -/
theorem c4_witness :
    ((0:ℚ) ≤ 0 ∨ (1/2:ℚ) ≤ 0)
      ∧ Joint.tryInit 7 0 (1/2) = Except.ok (Joint.init 7 0 (1/2)) :=
  ⟨Or.inl (le_refl 0),
   c4_nonpositive_construction_succeeds 7 0 (1/2) (Or.inl (le_refl 0))⟩

/-- C8: setting up the animation driver with a frame rate outside the
exclusive range (0, 1000) or a run duration not greater than 0 fails at
construction time with an `InvalidArgument` error. -/
theorem c8_animation_setup_validation (title : String) (frame_rate run_time : ℚ)
    (h : ¬(0 < frame_rate ∧ frame_rate < 1000) ∨ ¬(run_time > 0)) :
    Animation.init title frame_rate run_time
      = Except.error SetupError.invalidArgument := by
  unfold Animation.init
  rcases h with h | h
  · rw [if_neg h]
  · by_cases hf : 0 < frame_rate ∧ frame_rate < 1000
    · rw [if_pos hf, if_neg h]
    · rw [if_neg hf]

/-- Witness for C8 at frame rate 60 and run duration 0. -/
theorem c8_witness :
    (¬((0:ℚ) < 60 ∧ (60:ℚ) < 1000) ∨ ¬((0:ℚ) > (0:ℚ)))
      ∧ Animation.init "CS 4732 Project 2" 60 0
          = Except.error SetupError.invalidArgument :=
  ⟨Or.inr (lt_irrefl 0),
   c8_animation_setup_validation "CS 4732 Project 2" 60 0 (Or.inr (lt_irrefl 0))⟩

theorem iterT_eq (t : JTree) : iterT t = t :: iterF (childrenOf t) := by
  cases t with
  | node d f => rfl

mutual
theorem length_iterT (t : JTree) : (iterT t).length = sizeT t := by
  cases t with
  | node d f =>
    simp only [iterT, sizeT, List.length_cons, length_iterF f]
    omega
theorem length_iterF (f : JForest) : (iterF f).length = sizeF f := by
  cases f with
  | nil => rfl
  | cons t f =>
    simp only [iterF, sizeF, List.length_append, length_iterT t, length_iterF f]
end

mutual
theorem map_id_iterT (t : JTree) :
    (iterT t).map (fun s => (dataOf s).id) = treeIds t := by
  cases t with
  | node d f =>
    simp only [iterT, treeIds, List.map_cons, dataOf_node, map_id_iterF f]
theorem map_id_iterF (f : JForest) :
    (iterF f).map (fun s => (dataOf s).id) = forestIds f := by
  cases f with
  | nil => rfl
  | cons t f =>
    simp only [iterF, forestIds, List.map_append, map_id_iterT t, map_id_iterF f]
end

mutual
theorem mem_iterT_infix (t p : JTree) (hp : p ∈ iterT t) :
    ∃ a b, iterT t = a ++ iterT p ++ b := by
  cases t with
  | node d f =>
    rcases List.mem_cons.mp hp with h | h
    · exact ⟨[], [], by simp [← h]⟩
    · obtain ⟨a, b, hab⟩ := mem_iterF_infix f p h
      exact ⟨JTree.node d f :: a, b, by simp [iterT, hab]⟩
theorem mem_iterF_infix (f : JForest) (p : JTree) (hp : p ∈ iterF f) :
    ∃ a b, iterF f = a ++ iterT p ++ b := by
  cases f with
  | nil => simp [iterF] at hp
  | cons t f =>
    rcases List.mem_append.mp (by simpa [iterF] using hp) with h | h
    · obtain ⟨a, b, hab⟩ := mem_iterT_infix t p h
      exact ⟨a, b ++ iterF f, by simp [iterF, hab]⟩
    · obtain ⟨a, b, hab⟩ := mem_iterF_infix f p h
      exact ⟨iterT t ++ a, b, by simp [iterF, hab]⟩
end

theorem child_iterF_infix (f : JForest) (c : JTree) (hc : c ∈ forestList f) :
    ∃ a b, iterF f = a ++ iterT c ++ b := by
  cases f with
  | nil => simp [forestList] at hc
  | cons t f =>
    rcases List.mem_cons.mp hc with h | h
    · exact ⟨[], iterF f, by simp [iterF, ← h]⟩
    · obtain ⟨a, b, hab⟩ := child_iterF_infix f c h
      exact ⟨iterT t ++ a, b, by simp [iterF, hab]⟩

/-- C3 (amended): `iter_hierarchy()` on the root of a rig of N joints
(N = `sizeT`) yields exactly N joints; when the joints are pairwise
distinct objects (distinct ids) the yielded list has no duplicates; and
every parent is yielded strictly before any of its children — for each
yielded joint `p` and each child `c` of `p` the output splits as
`u ++ p :: v ++ c :: w`.  The rig `r` is universally quantified, so this
holds for every iteration order of every `children` set: the sibling
order is whatever order the set iterates in, fixed within a run and
hence stable within a single call.  The original claim's
creation/registration-order tie-break is not guaranteed by the code
(children live in an unordered Python `set`); see the counterexample. -/
theorem c3_iter_hierarchy_preorder (r : Rig) (hids : (treeIds r.root).Nodup) :
    (iterT r.root).length = sizeT r.root
    ∧ ((iterT r.root).map (fun s => (dataOf s).id)).Nodup
    ∧ ∀ p c, p ∈ iterT r.root → c ∈ forestList (childrenOf p) →
        ∃ u v w, iterT r.root = u ++ (p :: (v ++ (c :: w))) := by
  refine ⟨length_iterT r.root, ?_, ?_⟩
  · rw [map_id_iterT]; exact hids
  · intro p c hp hc
    obtain ⟨a, b, hab⟩ := mem_iterT_infix r.root p hp
    obtain ⟨u, v, huv⟩ := child_iterF_infix (childrenOf p) c hc
    refine ⟨a, u, iterF (childrenOf c) ++ v ++ b, ?_⟩
    rw [hab, iterT_eq p, huv, iterT_eq c]
    simp [List.append_assoc]

/-- Witness for C3 on the concrete rig `c3rig` (ids 0-3, all distinct). -/
theorem c3_witness :
    (iterT c3rig.root).length = sizeT c3rig.root
    ∧ ((iterT c3rig.root).map (fun s => (dataOf s).id)).Nodup
    ∧ ∀ p c, p ∈ iterT c3rig.root → c ∈ forestList (childrenOf p) →
        ∃ u v w, iterT c3rig.root = u ++ (p :: (v ++ (c :: w))) :=
  c3_iter_hierarchy_preorder c3rig (by decide)

/-- C3 counterexample: the code stores children in a plain Python `set`
(rig.py line 106), which fixes membership but not order, so the
traversal's sibling order is not determined to be creation/registration
order.  `setChildren` iterates the very same two-child set as
`regChildren` (same ids, a permutation), yet `iter_hierarchy`'s
recursion over it yields the siblings as `[2, 1]`, not the
registration-order `[1, 2]` — an admissible set-iteration order under
which the claimed tie-break fails. -/
theorem c3_counterexample :
    (forestIds setChildren).Perm (forestIds regChildren)
    ∧ (iterF setChildren).map (fun s => (dataOf s).id) = [2, 1]
    ∧ (iterF regChildren).map (fun s => (dataOf s).id) = [1, 2]
    ∧ (iterF setChildren).map (fun s => (dataOf s).id)
        ≠ (iterF regChildren).map (fun s => (dataOf s).id) := by
  refine ⟨?_, ?_, ?_, ?_⟩ <;> decide

theorem getEntry_dictSet (es : List (Key × JVal)) (k : Key) (v : JVal) :
    getEntry (dictSet es k v) k = some v := by
  induction es with
  | nil => simp [dictSet, getEntry]
  | cons e es ih =>
    obtain ⟨k2, v2⟩ := e
    by_cases h : k = k2
    · simp [dictSet, getEntry, h]
    · simp [dictSet, getEntry, h, ih]

theorem getEntry_append_self (es : List (Key × JVal)) (k : Key) (v : JVal)
    (h : getEntry es k = none) :
    getEntry (es ++ [(k, v)]) k = some v := by
  induction es with
  | nil => simp [getEntry]
  | cons e es ih =>
    obtain ⟨k2, v2⟩ := e
    by_cases hk : k = k2
    · simp [getEntry, hk] at h
    · simp only [List.cons_append, getEntry, if_neg hk] at h ⊢
      exact ih h

theorem setPath_roundtrip (p : List Key) : ∀ (m v : JVal), pathOk m p = true →
    ∃ m2, setPath m p v = some m2 ∧ getPathVal m2 p = some v := by
  induction p with
  | nil => intro m v h; cases m <;> simp [pathOk] at h
  | cons k ks ih =>
    intro m v h
    cases m with
    | leaf j => simp [pathOk] at h
    | node es =>
      cases ks with
      | nil =>
        refine ⟨.node (dictSet es k v), rfl, ?_⟩
        simp [getPathVal, getPath, getItemD, getEntry_dictSet]
      | cons k2 ks2 =>
        have hok : pathOk (getItemD es k).2 (k2 :: ks2) = true := by
          cases hse : getEntry es k with
          | none =>
            have hg : (getItemD es k).2 = JVal.node [] := by simp [getItemD, hse]
            rw [hg]
            cases ks2 <;> rfl
          | some w =>
            have h2 : pathOk w (k2 :: ks2) = true := by
              simpa [pathOk, hse] using h
            have hg : (getItemD es k).2 = w := by simp [getItemD, hse]
            rw [hg]; exact h2
        obtain ⟨sub, hset, hget⟩ := ih (getItemD es k).2 v hok
        refine ⟨.node (dictSet (getItemD es k).1 k sub), ?_, ?_⟩
        · simp [setPath, hset]
        · rw [getPathVal, Option.map_eq_some'] at hget
          obtain ⟨pr, hpr, hsnd⟩ := hget
          obtain ⟨ms, res⟩ := pr
          simp only at hsnd
          subst hsnd
          simp [getPathVal, getPath, getItemD, getEntry_dictSet, hpr]

theorem getPath_cons_node (es : List (Key × JVal)) (k : Key) (ks : List Key) :
    getPath (JVal.node es) (k :: ks)
      = match getPath (getItemD es k).2 ks with
        | some (sub, res) => some (.node (dictSet (getItemD es k).1 k sub), res)
        | none => none := rfl

theorem getPath_empty (p : List Key) (hp : p ≠ []) :
    getPathVal (JVal.node []) p = some (JVal.node []) := by
  induction p with
  | nil => cases hp rfl
  | cons k ks ih =>
    cases ks with
    | nil => simp [getPathVal, getPath, getItemD, getEntry]
    | cons k2 ks2 =>
      have hih := ih (by simp)
      rw [getPathVal, Option.map_eq_some'] at hih
      obtain ⟨pr, hpr, hsnd⟩ := hih
      obtain ⟨ms, res⟩ := pr
      simp only at hsnd
      subst hsnd
      rw [getPathVal, getPath_cons_node]
      have hg2 : (getItemD ([] : List (Key × JVal)) k).2 = JVal.node [] := rfl
      rw [hg2, hpr]
      rfl

/-- C5: for every starting registry whose entries along the (nonempty)
path are either absent or nested-registry nodes (`pathOk` — absent
intermediate levels auto-vivify, no pre-creation needed), assigning a
joint value at the path and reading the same path back returns that
value; and reading any such path on a never-assigned registry yields an
empty nested-registry container rather than an error. -/
theorem c5_registry_roundtrip (m : JVal) (p : List Key) (j : ℕ)
    (h : pathOk m p = true) :
    (∃ m2, setPath m p (JVal.leaf j) = some m2
        ∧ getPathVal m2 p = some (JVal.leaf j))
    ∧ getPathVal (JVal.node []) p = some (JVal.node []) := by
  refine ⟨setPath_roundtrip p m (JVal.leaf j) h, getPath_empty p ?_⟩
  intro hnil
  subst hnil
  cases m <;> simp [pathOk] at h

/-- Witness for C5 at the spec's example path `wings[1][3]` on a fresh
registry, storing joint 7. -/
theorem c5_witness :
    pathOk (JVal.node []) [Key.str "wings", Key.idx 1, Key.idx 3] = true
    ∧ ((∃ m2,
        setPath (JVal.node []) [Key.str "wings", Key.idx 1, Key.idx 3]
            (JVal.leaf 7) = some m2
          ∧ getPathVal m2 [Key.str "wings", Key.idx 1, Key.idx 3]
              = some (JVal.leaf 7))
      ∧ getPathVal (JVal.node []) [Key.str "wings", Key.idx 1, Key.idx 3]
          = some (JVal.node [])) :=
  ⟨rfl, c5_registry_roundtrip (JVal.node []) _ 7 rfl⟩

/-- C9: reading an absent key through `Rig.Joints.__getitem__` (or
`__getattr__`, which delegates to the same `defaultdict` lookup) is not
side-effect-free: it inserts a fresh empty nested-registry node under
the key (the registry grows by one entry), and a second read of the same
key returns that very node with no further growth. -/
theorem c9_getitem_autovivifies (es : List (Key × JVal)) (k : Key)
    (h : getEntry es k = none) :
    (getItemD es k).2 = JVal.node []
    ∧ (getItemD es k).1.length = es.length + 1
    ∧ getItemD (getItemD es k).1 k = ((getItemD es k).1, JVal.node []) := by
  have h1 : getItemD es k = (es ++ [(k, JVal.node [])], JVal.node []) := by
    simp [getItemD, h]
  refine ⟨by rw [h1], by rw [h1]; simp, ?_⟩
  rw [h1]
  simp [getItemD, getEntry_append_self es k _ h]

/-- Witness for C9 at the unset key `wings` of an empty registry. -/
theorem c9_witness :
    getEntry ([] : List (Key × JVal)) (Key.str "wings") = none
    ∧ ((getItemD [] (Key.str "wings")).2 = JVal.node []
      ∧ (getItemD [] (Key.str "wings")).1.length
          = ([] : List (Key × JVal)).length + 1
      ∧ getItemD (getItemD [] (Key.str "wings")).1 (Key.str "wings")
          = ((getItemD [] (Key.str "wings")).1, JVal.node [])) :=
  ⟨rfl, c9_getitem_autovivifies [] (Key.str "wings") rfl⟩
